import Mathlib

/-!
# Verification of the Schedula scheduling engine

A shallow embedding of `backend/services/schedulingEngine.js`:
score calculation, work-time calculation, slot finding, daily schedule
generation, explanation generation and rescheduling.

Modelling conventions:
* Instants (JS `Date` values) are integer minutes since an epoch midnight;
  a calendar day is 1440 minutes, `t / 1440` (Euclidean division) is the
  day index and `t % 1440` the minutes-since-midnight, matching the local
  `getHours() * 60 + getMinutes()` / `toDateString()` arithmetic of the
  source at minute resolution.
* JS floating-point numbers that can be fractional are modelled as exact
  rationals (`ℚ`); `Math.round` is `round : ℚ → ℤ` (both round half
  toward +∞); integer-valued quantities stay `Int`.
* The implicit wall clock (`new Date()` inside the engine) is passed as an
  explicit `now : Int` parameter.
* `while` loops are modelled as fueled recursion with fuel large enough
  for the loop bound; the fuel bounds are justified by theorems below.
-/

namespace Schedula

/-- An occupied time slot (minutes from midnight).  In the source the
occupied-slot records also carry a `task` field, which is never read by
any consumer; it is omitted here.  `stop` renders the source's `end`
field (a reserved word in Lean). -/
structure OSlot where
  start : Int
  stop : Int
deriving Repr, DecidableEq

/-- Result of `findAvailableSlot`: a `{start, end}` pair in minutes. -/
structure FoundSlot where
  start : Int
  stop : Int
deriving Repr, DecidableEq

/-- A task record as consumed by the engine (the fields the engine reads).
`deadline` and `scheduledStart` are instants in minutes since the epoch. -/
structure Task where
  id : Nat
  title : String
  description : String
  priority : String
  flexibility : String
  energyLevel : String
  estimatedDuration : Int
  deadline : Int
  isCompleted : Bool
  scheduledStart : Option Int
deriving Repr, DecidableEq

/-- User settings as read by the engine.  `none` models an absent/falsy
field, on which the source falls back to a default with `||`. -/
structure User where
  workingHoursStart : Option String
  workingHoursEnd : Option String
  maxDeepFocusMinutes : Option Int
  bufferMinutes : Option Int
deriving Repr, DecidableEq

/-- The four scores returned by `calculateAllScores`. -/
structure ScoreSet where
  urgencyScore : Int
  importanceScore : Int
  riskScore : Int
  finalScore : Int
deriving Repr, DecidableEq

/-- A task together with its scores.  The source spreads the task fields
and a `scores` field into one object; here they are the two components. -/
structure ScoredTask where
  task : Task
  scores : ScoreSet
deriving Repr, DecidableEq

/-- The `task` sub-object stored inside a schedule slot. -/
structure SlotTaskInfo where
  id : Nat
  title : String
  description : String
  priority : String
  energyLevel : String
  flexibility : String
  deadline : Int
  estimatedDuration : Int
deriving Repr, DecidableEq

/-- One placed slot of the output schedule.  `scheduledStart` and
`scheduledEnd` are absolute instants (ISO timestamps in the source). -/
structure SlotEntry where
  taskId : Nat
  task : SlotTaskInfo
  scheduledStart : Int
  scheduledEnd : Int
  durationMinutes : Int
  scores : ScoreSet
  explanation : String
deriving Repr, DecidableEq

/-- One entry of the `unscheduled` array: the (scored) task and a reason. -/
structure UnscheduledEntry where
  task : ScoredTask
  reason : String
deriving Repr, DecidableEq

/-- The `stats` block of a schedule. -/
structure Stats where
  totalTasks : Int
  scheduledTasks : Int
  totalScheduledMinutes : Int
  deepFocusMinutes : Int
  utilizationPercent : Int
deriving Repr, DecidableEq

/-- The output schedule.  The source's `date` field is the ISO date
string of the target day; it is modelled by the day's starting instant. -/
structure Schedule where
  date : Int
  workingHoursStart : String
  workingHoursEnd : String
  slots : List SlotEntry
  unscheduled : List UnscheduledEntry
  stats : Stats
deriving Repr, DecidableEq

/-- Options accepted by `reschedule`.  `date = none` models an absent
`date` option, for which the source defaults to `new Date()` (now). -/
structure RescheduleOptions where
  incompleteTaskId : Option Nat
  actualDuration : Option Int
  date : Option Int
deriving Repr, DecidableEq

/-- A change record produced by `reschedule`. -/
structure ChangeRecord where
  type : String
  taskId : Nat
  taskTitle : String
  overrunMinutes : Int
  explanation : String
deriving Repr, DecidableEq

/-- The value returned by `reschedule`. -/
structure RescheduleResult where
  schedule : Schedule
  changes : List ChangeRecord
  summary : String
deriving Repr, DecidableEq

/-! ## Constants -/

/-- `WEIGHTS` from the source, as exact rationals. -/
structure Weights where
  urgency : ℚ
  importance : ℚ
  risk : ℚ

def WEIGHTS : Weights := { urgency := 0.4, importance := 0.35, risk := 0.25 }

/-- `PRIORITY_VALUES[task.priority] || 2`: the object lookup with its
fallback for unknown keys. -/
def PRIORITY_VALUES (p : String) : Int :=
  if p = "low" then 1 else if p = "medium" then 2 else if p = "high" then 3 else 2

/-- `ENERGY_VALUES` lookup (declared in the source, never read by the
engine; an unknown key is modelled as 0). -/
def ENERGY_VALUES (e : String) : Int :=
  if e = "low-focus" then 1 else if e = "deep-focus" then 2 else 0

/-! ## Utility functions -/

/-- Split a character list on a separator character, keeping empty
segments (the behaviour of `String.split(":")` on the characters). -/
def splitOnChar (sep : Char) : List Char → List (List Char)
  | [] => [[]]
  | c :: rest =>
    match splitOnChar sep rest, c == sep with
    | r, true => [] :: r
    | [], false => [[c]]
    | h :: t, false => (c :: h) :: t

/-- The numeric value of a decimal digit, if the character is a digit. -/
def charDigit? (c : Char) : Option Nat :=
  if '0' ≤ c ∧ c ≤ '9' then some (c.toNat - '0'.toNat) else none

def digitsValAux : List Char → Int → Option Int
  | [], acc => some acc
  | c :: rest, acc =>
    match charDigit? c with
    | some d => digitsValAux rest (acc * 10 + (d : Int))
    | none => none

/-- `Number(s)` for an unsigned decimal string, `none` when the string is
not such a numeral (JS would yield `NaN`). -/
def parseIntJS : List Char → Option Int
  | [] => none
  | l => digitsValAux l 0

/-- `parseTimeToMinutes`: parse `"HH:MM"` to minutes from midnight via
`split(":").map(Number)`.  A malformed string yields `NaN` arithmetic in
JS; that case is modelled as 0 (no claim exercises malformed strings). -/
def parseTimeToMinutes (timeStr : String) : Int :=
  match (splitOnChar ':' timeStr.data).map parseIntJS with
  | [some hours, some minutes] => hours * 60 + minutes
  | _ => 0

/-- `String.padStart(2, "0")`. -/
def padStart2 (s : String) : String :=
  if s.length < 2 then "0" ++ s else s

/-- `minutesToTime`: minutes from midnight to an `"HH:MM"` string. -/
def minutesToTime (minutes : Int) : String :=
  let hours := minutes.fdiv 60
  let mins := minutes.emod 60
  padStart2 (toString hours) ++ ":" ++ padStart2 (toString mins)

/-- Day index of an instant (calendar day, for `toDateString` equality). -/
def dayOf (t : Int) : Int := t / 1440

/-- Minutes since midnight of an instant (`getHours()*60 + getMinutes()`). -/
def timeOfDay (t : Int) : Int := t % 1440

/-- `Math.round (a / b)` for integers `a`, `b > 0`: `⌊a/b + 1/2⌋`. -/
def jsRoundDiv (a b : Int) : Int := (2 * a + b).fdiv (2 * b)

/-! ## Score calculation -/

/-- The source's local `minutesRemaining = max(0, (deadline - now)/60000)`
in minutes, shared by the urgency and risk calculators. -/
def minutesRemainingQ (task : Task) (now : Int) : ℚ :=
  max 0 ((task.deadline - now : Int) : ℚ)

/-- The source's local `duration = task.estimatedDuration` as a rational. -/
def durationQ (task : Task) : ℚ := (task.estimatedDuration : ℚ)

/-- The piecewise-linear `urgency` value of `calculateUrgencyScore` as a
function of the source's `timeRatio`. -/
def urgencyValue (timeRatioV : ℚ) : ℚ :=
  if 1 ≤ timeRatioV then 100
  else if 0.5 ≤ timeRatioV then 80 + (timeRatioV - 0.5) * 40
  else if 0.25 ≤ timeRatioV then 50 + (timeRatioV - 0.25) * 120
  else if 0.1 ≤ timeRatioV then 20 + (timeRatioV - 0.1) * 200
  else timeRatioV * 200

/-- `calculateUrgencyScore(task)`; `now` is the source's `new Date()`. -/
def calculateUrgencyScore (task : Task) (now : Int) : Int :=
  if minutesRemainingQ task now ≤ 0 then 100
  else min 100 (max 0 (round
    (urgencyValue (durationQ task / minutesRemainingQ task now))))

/-- `calculateImportanceScore(task)`: priority score plus fixed-task and
deep-focus bonuses, clamped and rounded. -/
def calculateImportanceScore (task : Task) : Int :=
  min 100 (max 0 (round
    (((PRIORITY_VALUES task.priority : ℚ) - 1) / 2 * 60
      + (if task.flexibility = "fixed" then (30 : ℚ) else 0)
      + (if task.energyLevel = "deep-focus" then (10 : ℚ) else 0))))

/-- The work-minutes loop of `calculateAvailableWorkMinutes`, walking
calendar days from `current` until `endT`; one unit of fuel per day
(the source's unused `dayEnd` variable is omitted). -/
def workMinutesLoop (workStart workEnd endT : Int) : Nat → Int → Int
  | 0, _ => 0
  | fuel + 1, current =>
    if current < endT then
      if dayOf current = dayOf endT then
        max 0 (min workEnd (timeOfDay endT) - max workStart (timeOfDay current))
      else
        (if timeOfDay current < workEnd then workEnd - max workStart (timeOfDay current) else 0)
        + workMinutesLoop workStart workEnd endT fuel ((dayOf current + 1) * 1440)
    else 0

/-- JS `x || fallback` for an optional string field (`""` is falsy). -/
def jsOrString : Option String → String → String
  | some s, fallback => if s = "" then fallback else s
  | none, fallback => fallback

/-- `workStart = parseTimeToMinutes(workingHours?.start || "09:00")`, as
computed identically in `calculateAvailableWorkMinutes` and
`generateDailySchedule`. -/
def workStartOf (user : User) : Int :=
  parseTimeToMinutes (jsOrString user.workingHoursStart "09:00")

/-- `workEnd = parseTimeToMinutes(workingHours?.end || "17:00")`. -/
def workEndOf (user : User) : Int :=
  parseTimeToMinutes (jsOrString user.workingHoursEnd "17:00")

/-- `calculateAvailableWorkMinutes(start, end, userSettings)`.  The fuel
is one unit per calendar day between `start` and `endT`, which the
termination/correctness theorems below show is enough. -/
def calculateAvailableWorkMinutes (start endT : Int) (userSettings : User) : Int :=
  workMinutesLoop (workStartOf userSettings) (workEndOf userSettings) endT
    ((dayOf endT - dayOf start).toNat + 1) start

/-- The piecewise `risk` value of `calculateRiskScore` as a function of
the source's `bufferRatio`. -/
def riskValue (bufferRatioV : ℚ) : ℚ :=
  if bufferRatioV < 0.5 then 100 - bufferRatioV * 60
  else if bufferRatioV < 1 then 70 - (bufferRatioV - 0.5) * 60
  else if bufferRatioV < 2 then 40 - (bufferRatioV - 1) * 20
  else max 0 (20 - (bufferRatioV - 2) * 10)

/-- The source's `bufferRatio = (availableWorkMinutes - duration) / duration`. -/
def bufferRatioQ (task : Task) (userSettings : User) (now : Int) : ℚ :=
  ((calculateAvailableWorkMinutes now task.deadline userSettings : ℚ) - durationQ task)
    / durationQ task

/-- `calculateRiskScore(task, userSettings)`; `now` is the source's
`new Date()`.  The `risk += 10` for fixed tasks is inlined as a
conditional addend. -/
def calculateRiskScore (task : Task) (userSettings : User) (now : Int) : Int :=
  if minutesRemainingQ task now ≤ 0 ∨ minutesRemainingQ task now < durationQ task then 100
  else if (calculateAvailableWorkMinutes now task.deadline userSettings : ℚ)
      < durationQ task then 100
  else min 100 (max 0 (round
    (riskValue (bufferRatioQ task userSettings now)
      + (if task.flexibility = "fixed" then (10 : ℚ) else 0))))

/-- `calculateAllScores(task, userSettings)`. -/
def calculateAllScores (task : Task) (userSettings : User) (now : Int) : ScoreSet :=
  { urgencyScore := calculateUrgencyScore task now
    importanceScore := calculateImportanceScore task
    riskScore := calculateRiskScore task userSettings now
    finalScore := min 100 (max 0 (round
      ((calculateUrgencyScore task now : ℚ) * WEIGHTS.urgency
        + (calculateImportanceScore task : ℚ) * WEIGHTS.importance
        + (calculateRiskScore task userSettings now : ℚ) * WEIGHTS.risk))) }

/-! ## Slot finding -/

/-- The inner conflict scan of `findAvailableSlot`: the first occupied
slot (in list order) whose buffer-expanded interval overlaps the
candidate interval. -/
def findConflict (candidateStart candidateEnd buffer : Int) : List OSlot → Option OSlot
  | [] => none
  | slot :: rest =>
    if candidateStart < slot.stop + buffer ∧ candidateEnd > slot.start - buffer then some slot
    else findConflict candidateStart candidateEnd buffer rest

/-- The `while` loop of `findAvailableSlot`: try the candidate start,
and on a conflict restart from just after the conflicting slot.  One
unit of fuel per iteration. -/
def findSlotLoop (workEnd duration buffer : Int) (occupiedSlots : List OSlot) :
    Nat → Int → Option FoundSlot
  | 0, _ => none
  | fuel + 1, candidateStart =>
    if candidateStart + duration ≤ workEnd then
      match findConflict candidateStart (candidateStart + duration) buffer occupiedSlots with
      | none => some { start := candidateStart, stop := candidateStart + duration }
      | some slot => findSlotLoop workEnd duration buffer occupiedSlots fuel (slot.stop + buffer)
    else none

/-- `findAvailableSlot(startFrom, workEnd, duration, buffer, occupiedSlots)`.
Each conflict moves the candidate start strictly forward, so the loop runs
at most `workEnd - duration - startFrom + 1` times; the termination
theorem below shows this fuel is never the reason for a `none` answer. -/
def findAvailableSlot (startFrom workEnd duration buffer : Int)
    (occupiedSlots : List OSlot) : Option FoundSlot :=
  findSlotLoop workEnd duration buffer occupiedSlots
    (workEnd - duration - startFrom + 1).toNat startFrom

/-! ## Stable sorting

JS `Array.prototype.sort` is stable; the result of a stable sort by a
total preorder is unique, so any stable sorting algorithm models it.
`insertSortedBy`/`stableSortBy` is stable insertion sort: `le a b = true`
means the comparator allows `a` before `b`. -/

def insertSortedBy {α : Type} (le : α → α → Bool) (a : α) : List α → List α
  | [] => [a]
  | x :: xs => if le a x then a :: x :: xs else x :: insertSortedBy le a xs

def stableSortBy {α : Type} (le : α → α → Bool) : List α → List α
  | [] => []
  | x :: xs => insertSortedBy le x (stableSortBy le xs)

/-! ## Explanation generation -/

/-- `toLocaleTimeString("en-US", {hour:"2-digit", minute:"2-digit",
hour12:true})`, e.g. `"09:05 AM"`. -/
def formatTime12 (t : Int) : String :=
  let tod := timeOfDay t
  let h := tod / 60
  let m := tod % 60
  let h12 := if h % 12 = 0 then 12 else h % 12
  let meridiem := if h < 12 then "AM" else "PM"
  padStart2 (toString h12) ++ ":" ++ padStart2 (toString m) ++ " " ++ meridiem

/-- `generateExplanation(task, scheduledTime, user)`.  `user` is accepted
and unused, as in the source; `now` is the source's `new Date()`. -/
def generateExplanation (task : ScoredTask) (scheduledTime : Int) (user : User) (now : Int) :
    String :=
  let _ := user
  let scores := task.scores
  let timeStr := formatTime12 scheduledTime
  let endTime := scheduledTime + task.task.estimatedDuration
  let endTimeStr := formatTime12 endTime
  let firstPart := s!"Scheduled at {timeStr}–{endTimeStr}"
  let reasons : List String :=
    (if task.task.priority = "high" then ["high priority"]
     else if task.task.priority = "medium" then ["medium priority"] else [])
  let hoursUntilDeadline := jsRoundDiv (task.task.deadline - now) 60
  let reasons := reasons ++
    (if hoursUntilDeadline ≤ 24 then [s!"deadline in {hoursUntilDeadline} hours"]
     else
       let daysUntilDeadline := jsRoundDiv hoursUntilDeadline 24
       let plural := if daysUntilDeadline > 1 then "s" else ""
       [s!"deadline in {daysUntilDeadline} day{plural}"])
  let reasons := reasons ++
    (if task.task.energyLevel = "deep-focus" then ["requires deep focus"] else [])
  let reasons := reasons ++
    (if task.task.flexibility = "fixed" then ["has fixed time constraint"]
     else if scores.finalScore > 70 then ["limited scheduling flexibility"] else [])
  let reasons := reasons ++
    (if scores.riskScore > 70 then ["high risk of missing deadline if delayed"]
     else if scores.riskScore > 40 then ["moderate deadline risk"] else [])
  let reasonsJoined := String.intercalate ", " reasons
  let parts := [firstPart] ++
    (if reasons.length > 0 then [s!"because the task has {reasonsJoined}."] else [])
  let f := scores.finalScore
  let u := scores.urgencyScore
  let i := scores.importanceScore
  let r := scores.riskScore
  let parts := parts ++
    [s!"\n\n📊 Scheduling Score: {f}/100", s!"• Urgency: {u}/100",
     s!"• Importance: {i}/100", s!"• Risk: {r}/100"]
  String.intercalate " " parts

/-! ## Schedule generation -/

/-- JS `x || fallback` for an optional numeric field (`0` is falsy). -/
def jsOrInt : Option Int → Int → Int
  | some v, fallback => if v = 0 then fallback else v
  | none, fallback => fallback

/-- The seeding of `occupiedSlots` from fixed tasks whose
`scheduledStart` lies on the schedule's day (source lines 312–330),
including the final sort by start time.  The `if (task.scheduledStart)`
truthiness test is modelled as presence of the field. -/
def seededFixedSlots (fixedTasks : List ScoredTask) (scheduleDate : Int) : List OSlot :=
  let collected := fixedTasks.filterMap fun task =>
    match task.task.scheduledStart with
    | some s =>
      if dayOf s = dayOf scheduleDate then
        let startMinutes := timeOfDay s
        some { start := startMinutes, stop := startMinutes + task.task.estimatedDuration }
      else none
    | none => none
  stableSortBy (fun a b => a.start ≤ b.start) collected

/-- The mutable loop state of the movable-task placement loop. -/
structure PlaceState where
  currentTime : Int
  deepFocusUsed : Int
  occupiedSlots : List OSlot
  slots : List SlotEntry
  unscheduled : List UnscheduledEntry
  scheduledTasks : Int
  totalScheduledMinutes : Int
deriving Repr, DecidableEq

/-- The `task` sub-object pushed into a schedule slot. -/
def slotTaskInfoOf (t : Task) : SlotTaskInfo :=
  { id := t.id, title := t.title, description := t.description, priority := t.priority,
    energyLevel := t.energyLevel, flexibility := t.flexibility, deadline := t.deadline,
    estimatedDuration := t.estimatedDuration }

/-- `setHours(h, m, 0, 0)` on the day's midnight is additive in the hour
and minute arguments, so the absolute instant for minute-of-day `m` is
`scheduleDate + 60·⌊m/60⌋ + (m trunc-mod 60)` (JS `%` truncates toward
zero; for the nonnegative `m` produced here this is `scheduleDate + m`). -/
def setHoursOnDay (scheduleDate m : Int) : Int :=
  scheduleDate + 60 * (m.fdiv 60) + m.tmod 60

/-- The slot record pushed into `schedule.slots` for a placed task. -/
def placedSlotEntry (scheduleDate now : Int) (user : User) (task : ScoredTask)
    (slot : FoundSlot) : SlotEntry :=
  { taskId := task.task.id
    task := slotTaskInfoOf task.task
    scheduledStart := setHoursOnDay scheduleDate slot.start
    scheduledEnd := setHoursOnDay scheduleDate slot.stop
    durationMinutes := task.task.estimatedDuration
    scores := task.scores
    explanation := generateExplanation task (setHoursOnDay scheduleDate slot.start) user now }

/-- The unscheduled-reason string for a deep-focus task over the cap. -/
def deepFocusReason (maxDeepFocus : Int) : String :=
  s!"Exceeds daily deep-focus capacity ({maxDeepFocus} minutes)"

/-- One iteration of the movable-task placement loop of
`generateDailySchedule`: the deep-focus capacity check, then the slot
search from the (never advanced) cursor, then either a placement or an
`unscheduled` entry. -/
def placeTask (workEnd maxDeepFocus bufferMinutes scheduleDate now : Int) (user : User)
    (st : PlaceState) (task : ScoredTask) : PlaceState :=
  if task.task.energyLevel = "deep-focus"
      ∧ st.deepFocusUsed + task.task.estimatedDuration > maxDeepFocus then
    { st with unscheduled := st.unscheduled ++
        [{ task := task, reason := deepFocusReason maxDeepFocus }] }
  else
    match findAvailableSlot st.currentTime workEnd task.task.estimatedDuration bufferMinutes
        st.occupiedSlots with
    | some slot =>
      { st with
        slots := st.slots ++ [placedSlotEntry scheduleDate now user task slot]
        occupiedSlots := stableSortBy (fun a b => a.start ≤ b.start)
          (st.occupiedSlots ++ [{ start := slot.start, stop := slot.stop }])
        deepFocusUsed :=
          if task.task.energyLevel = "deep-focus" then
            st.deepFocusUsed + task.task.estimatedDuration
          else st.deepFocusUsed
        scheduledTasks := st.scheduledTasks + 1
        totalScheduledMinutes := st.totalScheduledMinutes + task.task.estimatedDuration }
    | none =>
      { st with unscheduled := st.unscheduled ++
          [{ task := task, reason := "No available time slot within working hours" }] }

/-- Eligibility filter of `generateDailySchedule` (its `pendingTasks`):
not completed and deadline on or after the start of the target day. -/
def pendingFilter (targetDate : Int) (task : Task) : Bool :=
  !task.isCompleted && decide (targetDate ≤ task.deadline)

/-- The source's `targetDate` with `setHours(0, 0, 0, 0)`: the starting
instant of `date`'s calendar day (also its `scheduleDate`). -/
def targetDateOf (date : Int) : Int := dayOf date * 1440

/-- The source's `pendingTasks` filter. -/
def pendingTasksOf (tasks : List Task) (date : Int) : List Task :=
  tasks.filter (pendingFilter (targetDateOf date))

/-- The source's `scoredTasks`: each pending task with its scores. -/
def scoredTasksOf (tasks : List Task) (user : User) (date : Int) (now : Int) :
    List ScoredTask :=
  (pendingTasksOf tasks date).map fun task =>
    { task := task, scores := calculateAllScores task user now }

/-- The source's `fixedTasks`. -/
def fixedTasksOf (tasks : List Task) (user : User) (date : Int) (now : Int) :
    List ScoredTask :=
  (scoredTasksOf tasks user date now).filter fun t => t.task.flexibility == "fixed"

/-- The source's `movableTasks`. -/
def movableTasksOf (tasks : List Task) (user : User) (date : Int) (now : Int) :
    List ScoredTask :=
  (scoredTasksOf tasks user date now).filter fun t => t.task.flexibility == "movable"

/-- The source's `movableTasks` after the stable sort by descending
`finalScore` (comparator `b.scores.finalScore - a.scores.finalScore`). -/
def movableSortedOf (tasks : List Task) (user : User) (date : Int) (now : Int) :
    List ScoredTask :=
  stableSortBy (fun a b => b.scores.finalScore ≤ a.scores.finalScore)
    (movableTasksOf tasks user date now)

/-- The placement state before the movable-task loop: cursor at
`workStart`, no deep focus used, occupancy seeded from fixed tasks. -/
def initStateOf (tasks : List Task) (user : User) (date : Int) (now : Int) : PlaceState :=
  { currentTime := workStartOf user
    deepFocusUsed := 0
    occupiedSlots := seededFixedSlots (fixedTasksOf tasks user date now) (targetDateOf date)
    slots := []
    unscheduled := []
    scheduledTasks := 0
    totalScheduledMinutes := 0 }

/-- The placement state after the movable-task loop of
`generateDailySchedule`. -/
def finalStateOf (tasks : List Task) (user : User) (date : Int) (now : Int) : PlaceState :=
  (movableSortedOf tasks user date now).foldl
    (placeTask (workEndOf user) (jsOrInt user.maxDeepFocusMinutes 240)
      (jsOrInt user.bufferMinutes 15) (targetDateOf date) now user)
    (initStateOf tasks user date now)

/-- `generateDailySchedule(tasks, user, date)`.  `now` is the source's
implicit `new Date()` used by the score calculators and the explanation
generator.  The `date` field of the result holds the day-start instant
(the source stores the ISO date string).  When `workEnd = workStart` the
source's utilization is `NaN`; division by zero in `ℚ` models it as 0. -/
def generateDailySchedule (tasks : List Task) (user : User) (date : Int) (now : Int) :
    Schedule :=
  { date := targetDateOf date
    workingHoursStart := minutesToTime (workStartOf user)
    workingHoursEnd := minutesToTime (workEndOf user)
    slots := stableSortBy (fun a b => a.scheduledStart ≤ b.scheduledStart)
      (finalStateOf tasks user date now).slots
    unscheduled := (finalStateOf tasks user date now).unscheduled
    stats :=
      { totalTasks := ((pendingTasksOf tasks date).length : Int)
        scheduledTasks := (finalStateOf tasks user date now).scheduledTasks
        totalScheduledMinutes := (finalStateOf tasks user date now).totalScheduledMinutes
        deepFocusMinutes := (finalStateOf tasks user date now).deepFocusUsed
        utilizationPercent :=
          round (((finalStateOf tasks user date now).totalScheduledMinutes : ℚ)
            / ((workEndOf user - workStartOf user : Int) : ℚ) * 100) } }

/-! ## Rescheduling -/

/-- `reschedule(tasks, user, options)`.  An absent `date` option defaults
to `new Date()` (`now`); `if (incompleteTask && actualDuration)` makes an
`actualDuration` of 0 falsy. -/
def reschedule (tasks : List Task) (user : User) (options : RescheduleOptions) (now : Int) :
    RescheduleResult :=
  let date := options.date.getD now
  let newSchedule := generateDailySchedule tasks user date now
  let changes : List ChangeRecord :=
    match options.incompleteTaskId with
    | some incompleteTaskId =>
      match tasks.find? (fun t => t.id == incompleteTaskId) with
      | some incompleteTask =>
        match options.actualDuration with
        | some actualDuration =>
          if actualDuration ≠ 0 then
            let overrun := actualDuration - incompleteTask.estimatedDuration
            if overrun > 0 then
              let title := incompleteTask.title
              [{ type := "overrun", taskId := incompleteTaskId,
                 taskTitle := incompleteTask.title, overrunMinutes := overrun,
                 explanation := s!"Task \"{title}\" took {overrun} minutes longer than estimated, causing schedule adjustment." }]
            else []
          else []
        | none => []
      | none => []
    | none => []
  let n := changes.length
  { schedule := newSchedule
    changes := changes
    summary :=
      if changes.length > 0 then s!"Schedule adjusted due to {n} change(s)."
      else "Schedule regenerated with current tasks." }

/-! ## Specification-side predicates used by the claims -/

/-- The claim's feasibility condition for `findAvailableSlot`: a start
`s` respecting the lower bound, fitting before `workEnd`, and conflicting
with no occupied interval (buffer-expanded, strict comparisons as in the
source's conflict test). -/
def slotFeasible (startFrom workEnd duration buffer : Int) (occupied : List OSlot)
    (s : Int) : Prop :=
  startFrom ≤ s ∧ s + duration ≤ workEnd ∧
    ∀ o ∈ occupied, ¬(s < o.stop + buffer ∧ s + duration > o.start - buffer)

instance (startFrom workEnd duration buffer : Int) (occupied : List OSlot) (s : Int) :
    Decidable (slotFeasible startFrom workEnd duration buffer occupied s) := by
  unfold slotFeasible; infer_instance

/-- Overlap (in minutes) of `[start, endT)` with the working-hour window
of calendar day `d` — the spec's per-day contribution for the work-time
calculator. -/
def dayOverlap (workStart workEnd start endT d : Int) : Int :=
  max 0 (min endT (d * 1440 + workEnd) - max start (d * 1440 + workStart))

/-- Buffer separation of two intervals: they do not overlap even when
`buffer` minutes of padding are inserted between them. -/
def sepBy (buffer : Int) (a b : OSlot) : Prop :=
  a.stop + buffer ≤ b.start ∨ b.stop + buffer ≤ a.start

instance (buffer : Int) (a b : OSlot) : Decidable (sepBy buffer a b) := by
  unfold sepBy; infer_instance

/-- The minutes-from-midnight interval of a placed slot relative to the
schedule day's start. -/
def ivOf (scheduleDate : Int) (sl : SlotEntry) : OSlot :=
  { start := sl.scheduledStart - scheduleDate, stop := sl.scheduledEnd - scheduleDate }

/-- Total placed deep-focus minutes of a slot list. -/
def deepFocusMinutesOf (slots : List SlotEntry) : Int :=
  ((slots.filter fun sl => sl.task.energyLevel == "deep-focus").map
    SlotEntry.durationMinutes).sum

/-- The task ids recorded in a placement state's two output lists. -/
def stateIdList (st : PlaceState) : List Nat :=
  st.slots.map SlotEntry.taskId ++ st.unscheduled.map fun u => u.task.task.id

/-! # Theorems

## Stable sort: permutation lemmas -/

theorem insertSortedBy_perm {α : Type} (le : α → α → Bool) (a : α) (l : List α) :
    (insertSortedBy le a l).Perm (a :: l) := by
  induction l with
  | nil => exact List.Perm.refl _
  | cons x xs ih =>
    cases h : le a x with
    | true => simp [insertSortedBy, h]
    | false =>
      simp only [insertSortedBy, h, Bool.false_eq_true, if_false]
      exact (ih.cons x).trans (List.Perm.swap a x xs)

theorem stableSortBy_perm {α : Type} (le : α → α → Bool) (l : List α) :
    (stableSortBy le l).Perm l := by
  induction l with
  | nil => exact List.Perm.refl _
  | cons x xs ih => exact (insertSortedBy_perm le x _).trans (ih.cons x)

/-! ## Slot finder lemmas -/

theorem findConflict_eq_none {cs ce b : Int} {l : List OSlot}
    (h : findConflict cs ce b l = none) :
    ∀ o ∈ l, ¬(cs < o.stop + b ∧ ce > o.start - b) := by
  induction l with
  | nil => simp
  | cons x xs ih =>
    rw [findConflict] at h
    by_cases hc : cs < x.stop + b ∧ ce > x.start - b
    · simp [hc] at h
    · intro o ho
      rcases List.mem_cons.mp ho with rfl | ho'
      · exact hc
      · exact ih (by simpa [hc] using h) o ho'

theorem findConflict_eq_some {cs ce b : Int} {l : List OSlot} {o : OSlot}
    (h : findConflict cs ce b l = some o) :
    o ∈ l ∧ cs < o.stop + b ∧ ce > o.start - b := by
  induction l with
  | nil => simp [findConflict] at h
  | cons x xs ih =>
    rw [findConflict] at h
    by_cases hc : cs < x.stop + b ∧ ce > x.start - b
    · rw [if_pos hc] at h
      obtain rfl := Option.some.inj h
      exact ⟨List.mem_cons_self x xs, hc⟩
    · rw [if_neg hc] at h
      obtain ⟨m, hco⟩ := ih h
      exact ⟨List.mem_cons_of_mem _ m, hco⟩

theorem findSlotLoop_sound {we d b : Int} {occ : List OSlot} :
    ∀ {fuel : Nat} {c : Int} {v : FoundSlot},
      findSlotLoop we d b occ fuel c = some v →
      v.stop = v.start + d ∧ c ≤ v.start ∧ v.start + d ≤ we ∧
        ∀ o ∈ occ, ¬(v.start < o.stop + b ∧ v.start + d > o.start - b) := by
  intro fuel
  induction fuel with
  | zero => intro c v h; simp [findSlotLoop] at h
  | succ fuel ih =>
    intro c v h
    rw [findSlotLoop] at h
    by_cases hg : c + d ≤ we
    · rw [if_pos hg] at h
      cases hf : findConflict c (c + d) b occ with
      | none =>
        simp only [hf] at h
        obtain rfl := Option.some.inj h
        exact ⟨rfl, le_refl _, hg, findConflict_eq_none hf⟩
      | some o =>
        simp only [hf] at h
        obtain ⟨ho, h1, h2⟩ := findConflict_eq_some hf
        obtain ⟨e1, e2, e3, e4⟩ := ih h
        exact ⟨e1, by omega, e3, e4⟩
    · rw [if_neg hg] at h
      exact absurd h (by simp)

theorem findSlotLoop_spec (we d b : Int) (occ : List OSlot) :
    ∀ (fuel : Nat) (c : Int), (we - d - c + 1).toNat ≤ fuel →
      (∀ v, findSlotLoop we d b occ fuel c = some v →
        ∀ s, c ≤ s → s + d ≤ we →
          (∀ o ∈ occ, ¬(s < o.stop + b ∧ s + d > o.start - b)) → v.start ≤ s)
      ∧ (findSlotLoop we d b occ fuel c = none →
        ∀ s, c ≤ s → s + d ≤ we →
          ∃ o ∈ occ, s < o.stop + b ∧ s + d > o.start - b) := by
  intro fuel
  induction fuel with
  | zero =>
    intro c hfuel
    constructor
    · intro v hv; simp [findSlotLoop] at hv
    · intro _ s hcs hsw; exfalso; omega
  | succ fuel ih =>
    intro c hfuel
    by_cases hg : c + d ≤ we
    · cases hf : findConflict c (c + d) b occ with
      | none =>
        constructor
        · intro v hv s hcs _ _
          rw [findSlotLoop, if_pos hg] at hv
          simp only [hf] at hv
          obtain rfl := Option.some.inj hv
          exact hcs
        · intro hnone
          rw [findSlotLoop, if_pos hg] at hnone
          simp only [hf] at hnone
          exact absurd hnone (by simp)
      | some o =>
        obtain ⟨ho, h1, h2⟩ := findConflict_eq_some hf
        have IH := ih (o.stop + b) (by omega)
        constructor
        · intro v hv s hcs hsw hnc
          rw [findSlotLoop, if_pos hg] at hv
          simp only [hf] at hv
          by_cases hs : o.stop + b ≤ s
          · exact IH.1 v hv s hs hsw hnc
          · exact absurd ⟨by omega, by omega⟩ (hnc o ho)
        · intro hnone s hcs hsw
          rw [findSlotLoop, if_pos hg] at hnone
          simp only [hf] at hnone
          by_cases hs : o.stop + b ≤ s
          · exact IH.2 hnone s hs hsw
          · exact ⟨o, ho, by omega, by omega⟩
    · constructor
      · intro v hv
        rw [findSlotLoop, if_neg hg] at hv
        exact absurd hv (by simp)
      · intro _ s hcs hsw; exfalso; omega

theorem findSlotLoop_fuel_stable (we d b : Int) (occ : List OSlot) :
    ∀ (fuel k : Nat) (c : Int), (we - d - c + 1).toNat ≤ fuel →
      findSlotLoop we d b occ (fuel + k) c = findSlotLoop we d b occ fuel c := by
  intro fuel
  induction fuel with
  | zero =>
    intro k c hfuel
    cases k with
    | zero => rfl
    | succ k =>
      have hshape : 0 + (k + 1) = k + 1 := by omega
      rw [hshape]
      show findSlotLoop we d b occ (k + 1) c = none
      rw [findSlotLoop, if_neg (by omega : ¬ c + d ≤ we)]
  | succ fuel ih =>
    intro k c hfuel
    have hshape : fuel + 1 + k = (fuel + k) + 1 := by omega
    rw [hshape, findSlotLoop, findSlotLoop]
    by_cases hg : c + d ≤ we
    · rw [if_pos hg, if_pos hg]
      cases hf : findConflict c (c + d) b occ with
      | none => simp [hf]
      | some o =>
        simp only [hf]
        obtain ⟨ho, h1, h2⟩ := findConflict_eq_some hf
        exact ih k (o.stop + b) (by omega)
    · rw [if_neg hg, if_neg hg]

/-- C4: `findAvailableSlot` returns the slot with the minimal feasible
start when a feasible start exists (earliest feasible start wins), and
`none` exactly when no start is feasible. -/
theorem findAvailableSlot_earliest :
    ∀ (startFrom workEnd duration buffer : Int) (occupied : List OSlot),
      (∀ v, findAvailableSlot startFrom workEnd duration buffer occupied = some v →
        v.stop = v.start + duration ∧
        slotFeasible startFrom workEnd duration buffer occupied v.start ∧
        ∀ s, slotFeasible startFrom workEnd duration buffer occupied s → v.start ≤ s)
      ∧ (findAvailableSlot startFrom workEnd duration buffer occupied = none →
        ∀ s, ¬ slotFeasible startFrom workEnd duration buffer occupied s) := by
  intro sf we d b occ
  have hspec := findSlotLoop_spec we d b occ ((we - d - sf + 1).toNat) sf (le_refl _)
  constructor
  · intro v hv
    obtain ⟨e1, e2, e3, e4⟩ := findSlotLoop_sound hv
    exact ⟨e1, ⟨e2, e3, e4⟩, fun s hs => hspec.1 v hv s hs.1 hs.2.1 hs.2.2⟩
  · intro hnone s hs
    obtain ⟨o, ho, hc⟩ := hspec.2 hnone s hs.1 hs.2.1
    exact hs.2.2 o ho hc

/-- Witness for C4 at a concrete input: with one occupied slot
`[20, 40]` and buffer 5, the returned start 45 is feasible (and is what
the function returns). -/
theorem findAvailableSlot_earliest_witness :
    findAvailableSlot 0 100 30 5 [{ start := 20, stop := 40 }]
      = some { start := 45, stop := 75 } ∧
    slotFeasible 0 100 30 5 [{ start := 20, stop := 40 }] 45 :=
  ⟨by decide,
    ((findAvailableSlot_earliest 0 100 30 5 [{ start := 20, stop := 40 }]).1
      { start := 45, stop := 75 } (by decide)).2.1⟩

/-- C10: the slot search terminates — each conflict moves the candidate
start strictly forward (to `slot.end + buffer`), so
`workEnd - duration - startFrom + 1` loop iterations always suffice:
granting the loop any extra fuel cannot change the result. -/
theorem findAvailableSlot_terminates :
    ∀ (startFrom workEnd duration buffer : Int) (occupied : List OSlot), 0 ≤ buffer →
      (∀ c o, findConflict c (c + duration) buffer occupied = some o →
        c < o.stop + buffer)
      ∧ ∀ k : Nat,
          findSlotLoop workEnd duration buffer occupied
            ((workEnd - duration - startFrom + 1).toNat + k) startFrom
          = findAvailableSlot startFrom workEnd duration buffer occupied := by
  intro sf we d b occ _
  exact ⟨fun c o h => (findConflict_eq_some h).2.1,
    fun k => findSlotLoop_fuel_stable we d b occ _ k sf (le_refl _)⟩

/-! ## Score bounds and the weight identity -/

theorem clamp_bounds (z : Int) : 0 ≤ min 100 (max 0 z) ∧ min 100 (max 0 z) ≤ 100 :=
  ⟨le_min (by norm_num) (le_max_left 0 z), min_le_left _ _⟩

theorem calculateUrgencyScore_bounds (t : Task) (now : Int) :
    0 ≤ calculateUrgencyScore t now ∧ calculateUrgencyScore t now ≤ 100 := by
  rw [calculateUrgencyScore]
  split_ifs <;> exact ⟨by norm_num, by norm_num⟩

theorem calculateImportanceScore_bounds (t : Task) :
    0 ≤ calculateImportanceScore t ∧ calculateImportanceScore t ≤ 100 := by
  rw [calculateImportanceScore]
  exact clamp_bounds _

theorem calculateRiskScore_bounds (t : Task) (u : User) (now : Int) :
    0 ≤ calculateRiskScore t u now ∧ calculateRiskScore t u now ≤ 100 := by
  rw [calculateRiskScore]
  split_ifs <;> exact ⟨by norm_num, by norm_num⟩

/-- C6: `calculateAllScores` returns exactly the three component scores
of the individual score functions, and its `finalScore` is the rounded
clamped weighted sum `0.4·urgency + 0.35·importance + 0.25·risk`,
lying in `[0, 100]`.  (Since each component lies in `[0, 100]`, clamping
before rounding — as the claim states it — agrees with the source's
rounding before clamping.) -/
theorem calculateAllScores_weightIdentity :
    ∀ (task : Task) (userSettings : User) (now : Int),
      (calculateAllScores task userSettings now).urgencyScore
          = calculateUrgencyScore task now
      ∧ (calculateAllScores task userSettings now).importanceScore
          = calculateImportanceScore task
      ∧ (calculateAllScores task userSettings now).riskScore
          = calculateRiskScore task userSettings now
      ∧ (calculateAllScores task userSettings now).finalScore
          = round (min 100 (max 0
              ((calculateUrgencyScore task now : ℚ) * 0.4
                + (calculateImportanceScore task : ℚ) * 0.35
                + (calculateRiskScore task userSettings now : ℚ) * 0.25)))
      ∧ 0 ≤ (calculateAllScores task userSettings now).finalScore
      ∧ (calculateAllScores task userSettings now).finalScore ≤ 100 := by
  intro t u now
  obtain ⟨hu0, hu1⟩ := calculateUrgencyScore_bounds t now
  obtain ⟨hi0, hi1⟩ := calculateImportanceScore_bounds t
  obtain ⟨hr0, hr1⟩ := calculateRiskScore_bounds t u now
  have hU0 : (0:ℚ) ≤ (calculateUrgencyScore t now : ℚ) := by exact_mod_cast hu0
  have hU1 : (calculateUrgencyScore t now : ℚ) ≤ 100 := by exact_mod_cast hu1
  have hI0 : (0:ℚ) ≤ (calculateImportanceScore t : ℚ) := by exact_mod_cast hi0
  have hI1 : (calculateImportanceScore t : ℚ) ≤ 100 := by exact_mod_cast hi1
  have hR0 : (0:ℚ) ≤ (calculateRiskScore t u now : ℚ) := by exact_mod_cast hr0
  have hR1 : (calculateRiskScore t u now : ℚ) ≤ 100 := by exact_mod_cast hr1
  have hsum0 : (0:ℚ) ≤ (calculateUrgencyScore t now : ℚ) * 0.4
      + (calculateImportanceScore t : ℚ) * 0.35
      + (calculateRiskScore t u now : ℚ) * 0.25 := by
    have h1 := mul_nonneg hU0 (by norm_num : (0:ℚ) ≤ 0.4)
    have h2 := mul_nonneg hI0 (by norm_num : (0:ℚ) ≤ 0.35)
    have h3 := mul_nonneg hR0 (by norm_num : (0:ℚ) ≤ 0.25)
    linarith
  have hsum1 : (calculateUrgencyScore t now : ℚ) * 0.4
      + (calculateImportanceScore t : ℚ) * 0.35
      + (calculateRiskScore t u now : ℚ) * 0.25 ≤ 100 := by
    have h1 := mul_le_mul_of_nonneg_right hU1 (by norm_num : (0:ℚ) ≤ 0.4)
    have h2 := mul_le_mul_of_nonneg_right hI1 (by norm_num : (0:ℚ) ≤ 0.35)
    have h3 := mul_le_mul_of_nonneg_right hR1 (by norm_num : (0:ℚ) ≤ 0.25)
    have e4 : (100:ℚ) * 0.4 + 100 * 0.35 + 100 * 0.25 = 100 := by norm_num
    linarith
  have e1 : (calculateAllScores t u now).finalScore
      = min 100 (max 0 (round ((calculateUrgencyScore t now : ℚ) * 0.4
          + (calculateImportanceScore t : ℚ) * 0.35
          + (calculateRiskScore t u now : ℚ) * 0.25))) := rfl
  have hround0 : 0 ≤ round ((calculateUrgencyScore t now : ℚ) * 0.4
      + (calculateImportanceScore t : ℚ) * 0.35
      + (calculateRiskScore t u now : ℚ) * 0.25) := by
    rw [round_eq]
    exact Int.le_floor.2 (by push_cast; linarith)
  have hround1 : round ((calculateUrgencyScore t now : ℚ) * 0.4
      + (calculateImportanceScore t : ℚ) * 0.35
      + (calculateRiskScore t u now : ℚ) * 0.25) ≤ 100 := by
    rw [round_eq]
    have hlt : ((calculateUrgencyScore t now : ℚ) * 0.4
        + (calculateImportanceScore t : ℚ) * 0.35
        + (calculateRiskScore t u now : ℚ) * 0.25) + 1/2 < ((101 : ℤ) : ℚ) := by
      push_cast
      linarith
    have := Int.floor_lt.2 hlt
    omega
  refine ⟨rfl, rfl, rfl, ?_, ?_, ?_⟩
  · rw [e1, max_eq_right hsum0, min_eq_right hsum1, max_eq_right hround0,
      min_eq_right hround1]
  · rw [e1]; exact (clamp_bounds _).1
  · rw [e1]; exact (clamp_bounds _).2

/-! ## Work-time calculator -/

theorem Icc_eq_insert {a b : Int} (h : a ≤ b) :
    Finset.Icc a b = insert a (Finset.Icc (a + 1) b) := by
  ext x
  simp only [Finset.mem_Icc, Finset.mem_insert]
  omega

theorem workMinutesLoop_eq_sum (ws we endT : Int) (h0 : 0 ≤ ws) (hwe : ws ≤ we)
    (h1440 : we ≤ 1440) :
    ∀ (fuel : Nat) (c : Int), (dayOf endT - dayOf c).toNat < fuel →
      workMinutesLoop ws we endT fuel c
        = ∑ d in Finset.Icc (dayOf c) (dayOf endT), dayOverlap ws we c endT d := by
  intro fuel
  induction fuel with
  | zero => intro c h; exact absurd h (by omega)
  | succ fuel ih =>
    intro c hfuel
    rw [workMinutesLoop]
    by_cases hlt : c < endT
    · rw [if_pos hlt]
      by_cases hsame : dayOf c = dayOf endT
      · rw [if_pos hsame, hsame, Finset.Icc_self, Finset.sum_singleton]
        unfold dayOverlap dayOf timeOfDay
        unfold dayOf at hsame
        omega
      · rw [if_neg hsame]
        have hdlt : dayOf c < dayOf endT := by
          unfold dayOf at hsame ⊢; omega
        have hnext : dayOf ((dayOf c + 1) * 1440) = dayOf c + 1 := by
          unfold dayOf; omega
        rw [ih ((dayOf c + 1) * 1440) (by rw [hnext]; omega), hnext]
        have hcong : ∀ d ∈ Finset.Icc (dayOf c + 1) (dayOf endT),
            dayOverlap ws we ((dayOf c + 1) * 1440) endT d = dayOverlap ws we c endT d := by
          intro d hd
          rw [Finset.mem_Icc] at hd
          unfold dayOverlap dayOf at *
          omega
        rw [Finset.sum_congr rfl hcong]
        conv_rhs => rw [Icc_eq_insert (show dayOf c ≤ dayOf endT by omega)]
        rw [Finset.sum_insert (by simp only [Finset.mem_Icc]; omega)]
        have hhead : (if timeOfDay c < we then we - max ws (timeOfDay c) else 0)
            = dayOverlap ws we c endT (dayOf c) := by
          unfold dayOverlap dayOf timeOfDay at *
          split_ifs <;> omega
        rw [hhead]
    · rw [if_neg hlt]
      symm
      apply Finset.sum_eq_zero
      intro d hd
      rw [Finset.mem_Icc] at hd
      unfold dayOverlap dayOf at *
      omega

/-- C8: for `start`/`end` spanning multiple calendar days,
`calculateAvailableWorkMinutes` is the sum over all calendar days from
`start`'s to `end`'s of the overlap of `[start, end)` with the day's
working-hour window; a full day strictly in between contributes exactly
`workEnd - workStart`, a start day whose time-of-day is past `workEnd`
contributes 0, and the final day is clipped to
`min(workEnd, end's time-of-day)`. -/
theorem calculateAvailableWorkMinutes_sum :
    ∀ (start endT : Int) (userSettings : User),
      0 ≤ workStartOf userSettings →
      workStartOf userSettings ≤ workEndOf userSettings →
      workEndOf userSettings ≤ 1440 →
      dayOf start < dayOf endT →
      calculateAvailableWorkMinutes start endT userSettings
        = ∑ d in Finset.Icc (dayOf start) (dayOf endT),
            dayOverlap (workStartOf userSettings) (workEndOf userSettings) start endT d
      ∧ (∀ d, dayOf start < d → d < dayOf endT →
          dayOverlap (workStartOf userSettings) (workEndOf userSettings) start endT d
            = workEndOf userSettings - workStartOf userSettings)
      ∧ (workEndOf userSettings ≤ timeOfDay start →
          dayOverlap (workStartOf userSettings) (workEndOf userSettings) start endT
            (dayOf start) = 0)
      ∧ dayOverlap (workStartOf userSettings) (workEndOf userSettings) start endT
            (dayOf endT)
          = max 0 (min (workEndOf userSettings) (timeOfDay endT)
              - workStartOf userSettings) := by
  intro s e u h0 hwe h1440 hspan
  refine ⟨?_, ?_, ?_, ?_⟩
  · unfold calculateAvailableWorkMinutes
    exact workMinutesLoop_eq_sum _ _ _ h0 hwe h1440 _ s (by omega)
  · intro d hd1 hd2
    unfold dayOverlap
    unfold dayOf at *
    omega
  · intro h
    unfold dayOverlap
    unfold dayOf timeOfDay at *
    omega
  · unfold dayOverlap
    unfold dayOf timeOfDay at *
    omega

/-- Witness for C8: a concrete span from day 0, 10:00 to day 2, 02:00
with the default 09:00–17:00 working hours (all preference fields
absent). -/
theorem calculateAvailableWorkMinutes_sum_witness :
    (0 ≤ workStartOf ⟨none, none, none, none⟩
      ∧ workStartOf ⟨none, none, none, none⟩ ≤ workEndOf ⟨none, none, none, none⟩
      ∧ workEndOf ⟨none, none, none, none⟩ ≤ 1440
      ∧ dayOf 600 < dayOf 3000)
    ∧ calculateAvailableWorkMinutes 600 3000 ⟨none, none, none, none⟩
      = ∑ d in Finset.Icc (dayOf 600) (dayOf 3000),
          dayOverlap (workStartOf ⟨none, none, none, none⟩)
            (workEndOf ⟨none, none, none, none⟩) 600 3000 d :=
  ⟨⟨by decide, by decide, by decide, by decide⟩,
    (calculateAvailableWorkMinutes_sum 600 3000 ⟨none, none, none, none⟩
      (by decide) (by decide) (by decide) (by decide)).1⟩

/-! ## Placement loop invariants -/

theorem placeTask_currentTime (we mdf bm sd now : Int) (user : User) (st : PlaceState)
    (t : ScoredTask) :
    (placeTask we mdf bm sd now user st t).currentTime = st.currentTime := by
  rw [placeTask]
  split
  · rfl
  · split <;> rfl

theorem placeAll_currentTime (we mdf bm sd now : Int) (user : User) :
    ∀ (ts : List ScoredTask) (st : PlaceState),
      (ts.foldl (placeTask we mdf bm sd now user) st).currentTime = st.currentTime := by
  intro ts
  induction ts with
  | nil => intro st; rfl
  | cons t ts ih =>
    intro st
    rw [List.foldl_cons, ih, placeTask_currentTime]

theorem placeTask_ids (we mdf bm sd now : Int) (user : User) (st : PlaceState)
    (t : ScoredTask) :
    (stateIdList (placeTask we mdf bm sd now user st t)).Perm
      (t.task.id :: stateIdList st) := by
  rw [placeTask]
  split
  · unfold stateIdList
    simp only [List.map_append, List.map_cons, List.map_nil]
    rw [← List.append_assoc]
    exact List.perm_append_singleton _ _
  · split
    · rename_i slot heq
      unfold stateIdList
      simp only [List.map_append, List.map_cons, List.map_nil, List.singleton_append]
      have hx : (placedSlotEntry sd now user t slot).taskId = t.task.id := rfl
      rw [hx, List.append_assoc, List.singleton_append]
      exact List.perm_middle
    · unfold stateIdList
      simp only [List.map_append, List.map_cons, List.map_nil]
      rw [← List.append_assoc]
      exact List.perm_append_singleton _ _

theorem placeAll_ids (we mdf bm sd now : Int) (user : User) :
    ∀ (ts : List ScoredTask) (st : PlaceState),
      (stateIdList (ts.foldl (placeTask we mdf bm sd now user) st)).Perm
        (stateIdList st ++ ts.map fun t => t.task.id) := by
  intro ts
  induction ts with
  | nil => intro st; simp
  | cons t ts ih =>
    intro st
    rw [List.foldl_cons, List.map_cons]
    refine (ih _).trans ?_
    refine (((placeTask_ids we mdf bm sd now user st t).append_right _).trans ?_)
    exact List.perm_middle.symm

theorem placeTask_deepFocus (we mdf bm sd now : Int) (user : User) (st : PlaceState)
    (t : ScoredTask) (h1 : st.deepFocusUsed = deepFocusMinutesOf st.slots)
    (h2 : st.deepFocusUsed ≤ mdf) :
    (placeTask we mdf bm sd now user st t).deepFocusUsed
        = deepFocusMinutesOf (placeTask we mdf bm sd now user st t).slots
      ∧ (placeTask we mdf bm sd now user st t).deepFocusUsed ≤ mdf := by
  rw [placeTask]
  split
  · exact ⟨h1, h2⟩
  · rename_i hdf
    split
    · rename_i slot heq
      dsimp only
      unfold deepFocusMinutesOf at h1 ⊢
      rw [List.filter_append, List.map_append, List.sum_append]
      by_cases he : t.task.energyLevel = "deep-focus"
      · have hfil : List.filter (fun sl => sl.task.energyLevel == "deep-focus")
            [placedSlotEntry sd now user t slot] = [placedSlotEntry sd now user t slot] := by
          simp [placedSlotEntry, slotTaskInfoOf, he]
        have hgt : ¬ st.deepFocusUsed + t.task.estimatedDuration > mdf :=
          fun hx => hdf ⟨he, hx⟩
        constructor
        · rw [if_pos he, hfil]
          simp only [List.map_cons, List.map_nil, List.sum_cons, List.sum_nil]
          have hd : (placedSlotEntry sd now user t slot).durationMinutes
              = t.task.estimatedDuration := rfl
          rw [hd]
          omega
        · rw [if_pos he]
          omega
      · have hfil : List.filter (fun sl => sl.task.energyLevel == "deep-focus")
            [placedSlotEntry sd now user t slot] = [] := by
          simp [placedSlotEntry, slotTaskInfoOf, he]
        constructor
        · rw [if_neg he, hfil]
          simp only [List.map_nil, List.sum_nil]
          omega
        · rw [if_neg he]
          exact h2
    · exact ⟨h1, h2⟩

theorem placeAll_deepFocus (we mdf bm sd now : Int) (user : User) :
    ∀ (ts : List ScoredTask) (st : PlaceState),
      st.deepFocusUsed = deepFocusMinutesOf st.slots → st.deepFocusUsed ≤ mdf →
      (ts.foldl (placeTask we mdf bm sd now user) st).deepFocusUsed
          = deepFocusMinutesOf (ts.foldl (placeTask we mdf bm sd now user) st).slots
        ∧ (ts.foldl (placeTask we mdf bm sd now user) st).deepFocusUsed ≤ mdf := by
  intro ts
  induction ts with
  | nil => intro st h1 h2; exact ⟨h1, h2⟩
  | cons t ts ih =>
    intro st h1 h2
    rw [List.foldl_cons]
    obtain ⟨h1', h2'⟩ := placeTask_deepFocus we mdf bm sd now user st t h1 h2
    exact ih _ h1' h2'

theorem placeTask_slots_none (we mdf bm sd now : Int) (user : User) (st : PlaceState)
    (t : ScoredTask)
    (hnone : findAvailableSlot st.currentTime we t.task.estimatedDuration bm
      st.occupiedSlots = none) :
    (placeTask we mdf bm sd now user st t).slots = st.slots := by
  rw [placeTask]
  split
  · rfl
  · simp only [hnone]

theorem placeAll_slots_empty (we mdf bm sd now : Int) (user : User) (ws : Int)
    (hwe : we ≤ ws) :
    ∀ (ts : List ScoredTask) (st : PlaceState), st.currentTime = ws →
      (∀ t ∈ ts, 0 < t.task.estimatedDuration) →
      (ts.foldl (placeTask we mdf bm sd now user) st).slots = st.slots := by
  intro ts
  induction ts with
  | nil => intro st _ _; rfl
  | cons t ts ih =>
    intro st hcur hdur
    rw [List.foldl_cons]
    have hnone : findAvailableSlot st.currentTime we t.task.estimatedDuration bm
        st.occupiedSlots = none := by
      unfold findAvailableSlot
      have hd := hdur t (List.mem_cons_self t ts)
      have hz : (we - t.task.estimatedDuration - st.currentTime + 1).toNat = 0 := by
        rw [hcur]; omega
      rw [hz]
      rfl
    rw [ih _ (by rw [placeTask_currentTime]; exact hcur)
      (fun x hx => hdur x (List.mem_cons_of_mem t hx))]
    exact placeTask_slots_none we mdf bm sd now user st t hnone

/-! ## Conservation, totality on malformed input, deep-focus cap -/

theorem mem_movableSorted_mem_tasks {tasks : List Task} {user : User} {date now : Int}
    {t : ScoredTask} (h : t ∈ movableSortedOf tasks user date now) : t.task ∈ tasks := by
  unfold movableSortedOf at h
  rw [(stableSortBy_perm _ _).mem_iff] at h
  unfold movableTasksOf at h
  rw [List.mem_filter] at h
  obtain ⟨h, _⟩ := h
  unfold scoredTasksOf at h
  rw [List.mem_map] at h
  obtain ⟨task, htask, rfl⟩ := h
  unfold pendingTasksOf at htask
  exact (List.mem_filter.mp htask).1

theorem movable_ids (tasks : List Task) (user : User) (date now : Int) :
    ((movableTasksOf tasks user date now).map fun t => t.task.id)
      = ((pendingTasksOf tasks date).filter fun t => t.flexibility == "movable").map
          Task.id := by
  unfold movableTasksOf scoredTasksOf
  rw [List.filter_map, List.map_map]
  rfl

/-- C1 (amended): the task ids of `slots` and `unscheduled` together
are exactly (as a multiset, i.e. up to permutation) the ids of the
eligible *movable* tasks — each appears exactly once.  Eligible *fixed*
tasks appear in neither array: they only seed the internal occupancy
set (see the counterexample). -/
theorem generateDailySchedule_conserves_movables :
    ∀ (tasks : List Task) (user : User) (date now : Int),
      ((generateDailySchedule tasks user date now).slots.map SlotEntry.taskId
        ++ (generateDailySchedule tasks user date now).unscheduled.map
          fun u => u.task.task.id).Perm
        (((pendingTasksOf tasks date).filter fun t => t.flexibility == "movable").map
          Task.id) := by
  intro tasks user date now
  have h1 : (generateDailySchedule tasks user date now).slots
      = stableSortBy (fun a b => a.scheduledStart ≤ b.scheduledStart)
        (finalStateOf tasks user date now).slots := rfl
  have h2 : (generateDailySchedule tasks user date now).unscheduled
      = (finalStateOf tasks user date now).unscheduled := rfl
  rw [h1, h2]
  have hsort := (stableSortBy_perm (fun a b => a.scheduledStart ≤ b.scheduledStart)
      (finalStateOf tasks user date now).slots).map SlotEntry.taskId
  refine (hsort.append_right _).trans ?_
  show (stateIdList (finalStateOf tasks user date now)).Perm _
  have hfold : (stateIdList (finalStateOf tasks user date now)).Perm
      (stateIdList (initStateOf tasks user date now)
        ++ (movableSortedOf tasks user date now).map fun t => t.task.id) :=
    placeAll_ids _ _ _ _ _ _ _ _
  refine hfold.trans ?_
  rw [show stateIdList (initStateOf tasks user date now) = [] from rfl, List.nil_append]
  refine ((stableSortBy_perm _ _).map _).trans ?_
  rw [movable_ids]

/-- C1 counterexample: one eligible task (fixed, future deadline,
`scheduledStart` on the target day) is counted by `stats.totalTasks` yet
appears in neither `slots` nor `unscheduled`: fixed tasks are silently
absent from both output arrays, refuting conservation as stated. -/
theorem fixed_task_dropped_counterexample :
    (generateDailySchedule
        [⟨7, "meeting", "", "medium", "fixed", "low-focus", 60, 2000, false, some 600⟩]
        ⟨some "09:00", some "17:00", none, some 15⟩ 0 0).stats.totalTasks = 1
    ∧ (generateDailySchedule
        [⟨7, "meeting", "", "medium", "fixed", "low-focus", 60, 2000, false, some 600⟩]
        ⟨some "09:00", some "17:00", none, some 15⟩ 0 0).slots = []
    ∧ (generateDailySchedule
        [⟨7, "meeting", "", "medium", "fixed", "low-focus", 60, 2000, false, some 600⟩]
        ⟨some "09:00", some "17:00", none, some 15⟩ 0 0).unscheduled = [] := by
  with_unfolding_all decide

/-- C2 (amended): `generateDailySchedule` performs no validation and
never fails: even when the parsed `workEnd ≤ workStart` it returns a
full `Schedule` — with empty `slots` and every eligible movable task
reported in `unscheduled` (assuming positive durations). -/
theorem generateDailySchedule_total_on_malformed :
    ∀ (tasks : List Task) (user : User) (date now : Int),
      workEndOf user ≤ workStartOf user →
      (∀ t ∈ tasks, 0 < t.estimatedDuration) →
      (generateDailySchedule tasks user date now).slots = []
      ∧ ((generateDailySchedule tasks user date now).unscheduled.map
          fun u => u.task.task.id).Perm
        (((pendingTasksOf tasks date).filter fun t => t.flexibility == "movable").map
          Task.id) := by
  intro tasks user date now hwe hdur
  have hdur' : ∀ t ∈ movableSortedOf tasks user date now,
      0 < t.task.estimatedDuration :=
    fun t ht => hdur t.task (mem_movableSorted_mem_tasks ht)
  have hslots : (finalStateOf tasks user date now).slots = [] :=
    placeAll_slots_empty (workEndOf user) (jsOrInt user.maxDeepFocusMinutes 240)
      (jsOrInt user.bufferMinutes 15) (targetDateOf date) now user (workStartOf user) hwe
      (movableSortedOf tasks user date now) (initStateOf tasks user date now) rfl hdur'
  constructor
  · show stableSortBy (fun a b => a.scheduledStart ≤ b.scheduledStart)
        (finalStateOf tasks user date now).slots = []
    rw [hslots]
    rfl
  · have hfold : (stateIdList (finalStateOf tasks user date now)).Perm
        (stateIdList (initStateOf tasks user date now)
          ++ (movableSortedOf tasks user date now).map fun t => t.task.id) :=
      placeAll_ids _ _ _ _ _ _ _ _
    have hsl : stateIdList (finalStateOf tasks user date now)
        = (finalStateOf tasks user date now).unscheduled.map fun u => u.task.task.id := by
      unfold stateIdList
      rw [hslots]
      rfl
    show ((finalStateOf tasks user date now).unscheduled.map
        fun u => u.task.task.id).Perm _
    rw [← hsl]
    refine hfold.trans ?_
    rw [show stateIdList (initStateOf tasks user date now) = [] from rfl, List.nil_append]
    refine ((stableSortBy_perm _ _).map _).trans ?_
    rw [movable_ids]

/-- C2 counterexample: with the working hours swapped
(`workEnd = 09:00 ≤ workStart = 17:00`, malformed per the spec),
`generateDailySchedule` does not fail with a validation error — it
returns a full `Schedule` whose single eligible task is reported in
`unscheduled`. -/
theorem no_validation_error_counterexample :
    workEndOf ⟨some "17:00", some "09:00", none, some 15⟩
        ≤ workStartOf ⟨some "17:00", some "09:00", none, some 15⟩
    ∧ (generateDailySchedule
        [⟨3, "t", "", "medium", "movable", "low-focus", 30, 100, false, none⟩]
        ⟨some "17:00", some "09:00", none, some 15⟩ 0 0).slots = []
    ∧ ((generateDailySchedule
        [⟨3, "t", "", "medium", "movable", "low-focus", 30, 100, false, none⟩]
        ⟨some "17:00", some "09:00", none, some 15⟩ 0 0).unscheduled.map
          fun u => (u.task.task.id, u.reason))
      = [(3, "No available time slot within working hours")]
    ∧ (generateDailySchedule
        [⟨3, "t", "", "medium", "movable", "low-focus", 30, 100, false, none⟩]
        ⟨some "17:00", some "09:00", none, some 15⟩ 0 0).stats.totalTasks = 1 := by
  with_unfolding_all decide

/-- C5: the total `estimatedDuration` of placed deep-focus tasks never
exceeds `maxDeepFocusMinutes`, and a movable deep-focus task that would
exceed the cap is pushed to `unscheduled` with the capacity reason while
every other component of the placement state is left unchanged. -/
theorem deep_focus_cap_respected :
    ∀ (tasks : List Task) (user : User) (date now : Int),
      0 ≤ jsOrInt user.maxDeepFocusMinutes 240 →
      (((generateDailySchedule tasks user date now).slots.filter
          fun sl => sl.task.energyLevel == "deep-focus").map
            SlotEntry.durationMinutes).sum
        ≤ jsOrInt user.maxDeepFocusMinutes 240
      ∧ ∀ (workEnd scheduleDate : Int) (st : PlaceState) (t : ScoredTask),
          t.task.energyLevel = "deep-focus" →
          jsOrInt user.maxDeepFocusMinutes 240
            < st.deepFocusUsed + t.task.estimatedDuration →
          placeTask workEnd (jsOrInt user.maxDeepFocusMinutes 240)
              (jsOrInt user.bufferMinutes 15) scheduleDate now user st t
            = { st with unscheduled := st.unscheduled ++
                [{ task := t,
                   reason := deepFocusReason (jsOrInt user.maxDeepFocusMinutes 240) }] } := by
  intro tasks user date now h0
  constructor
  · obtain ⟨hdf0, hle0⟩ := placeAll_deepFocus (workEndOf user)
      (jsOrInt user.maxDeepFocusMinutes 240) (jsOrInt user.bufferMinutes 15)
      (targetDateOf date) now user (movableSortedOf tasks user date now)
      (initStateOf tasks user date now) rfl h0
    have hdf : (finalStateOf tasks user date now).deepFocusUsed
        = deepFocusMinutesOf (finalStateOf tasks user date now).slots := hdf0
    have hle : (finalStateOf tasks user date now).deepFocusUsed
        ≤ jsOrInt user.maxDeepFocusMinutes 240 := hle0
    show deepFocusMinutesOf ((generateDailySchedule tasks user date now).slots)
        ≤ jsOrInt user.maxDeepFocusMinutes 240
    have hperm := stableSortBy_perm (fun a b => a.scheduledStart ≤ b.scheduledStart)
      (finalStateOf tasks user date now).slots
    have heq : deepFocusMinutesOf ((generateDailySchedule tasks user date now).slots)
        = deepFocusMinutesOf (finalStateOf tasks user date now).slots := by
      unfold deepFocusMinutesOf
      exact ((hperm.filter _).map _).sum_eq
    rw [heq, ← hdf]
    exact hle
  · intro workEnd scheduleDate st t he hgt
    rw [placeTask, if_pos ⟨he, hgt⟩]

/-- Witness for C5: `maxDeepFocusMinutes = 60` with two 60-minute
deep-focus movable tasks (the spec's own scenario). -/
theorem deep_focus_cap_respected_witness :
    (0 : Int) ≤ jsOrInt (some 60) 240
    ∧ (((generateDailySchedule
          [⟨1, "a", "", "high", "movable", "deep-focus", 60, 4000, false, none⟩,
           ⟨2, "b", "", "high", "movable", "deep-focus", 60, 4000, false, none⟩]
          ⟨some "09:00", some "17:00", some 60, some 15⟩ 0 0).slots.filter
            fun sl => sl.task.energyLevel == "deep-focus").map
              SlotEntry.durationMinutes).sum
      ≤ jsOrInt (⟨some "09:00", some "17:00", some 60, some 15⟩ : User).maxDeepFocusMinutes
          240 :=
  ⟨by decide,
    (deep_focus_cap_respected
      [⟨1, "a", "", "high", "movable", "deep-focus", 60, 4000, false, none⟩,
       ⟨2, "b", "", "high", "movable", "deep-focus", 60, 4000, false, none⟩]
      ⟨some "09:00", some "17:00", some 60, some 15⟩ 0 0 (by decide)).1⟩

/-- C7: the spec's scenario — working hours 09:00–17:00, buffer 15, a
fixed task at 10:00–11:00 and a 30-minute movable task — places the
movable task at 09:00–09:30; and in general the placement loop never
reassigns the cursor, so every slot search starts from the initial
`workStart` cursor value. -/
theorem cursor_never_advances :
    (((generateDailySchedule
        [⟨2, "standup", "", "high", "fixed", "low-focus", 60, 2000, false, some 600⟩,
         ⟨1, "report", "", "high", "movable", "low-focus", 30, 2000, false, none⟩]
        ⟨some "09:00", some "17:00", none, some 15⟩ 0 0).slots.map
          fun sl => (sl.taskId, sl.scheduledStart, sl.scheduledEnd))
      = [(1, 540, 570)])
    ∧ (∀ (tasks : List Task) (user : User) (date now : Int),
        (initStateOf tasks user date now).currentTime = workStartOf user)
    ∧ ∀ (workEnd maxDeepFocus bufferMinutes scheduleDate now : Int) (user : User)
        (ts : List ScoredTask) (st : PlaceState),
        (ts.foldl (placeTask workEnd maxDeepFocus bufferMinutes scheduleDate now user)
          st).currentTime = st.currentTime :=
  ⟨by with_unfolding_all decide,
    fun _ _ _ _ => rfl,
    fun we mdf bm sd now user ts st => placeAll_currentTime we mdf bm sd now user ts st⟩

/-- C9: `reschedule` is a full regeneration — its `schedule` field is
exactly the value of `generateDailySchedule` on the same tasks, user and
date. -/
theorem reschedule_regenerates :
    ∀ (tasks : List Task) (user : User) (now date : Int) (tid : Option Nat)
      (adur : Option Int),
      (reschedule tasks user ⟨tid, adur, some date⟩ now).schedule
        = generateDailySchedule tasks user date now := by
  intro tasks user now date tid adur
  rfl

/-! ## Buffer separation (no double-booking) -/

theorem setHoursOnDay_eq {sd m : Int} (h : 0 ≤ m) : setHoursOnDay sd m = sd + m := by
  unfold setHoursOnDay
  rw [Int.fdiv_eq_ediv _ (by norm_num : (0:Int) ≤ 60),
    Int.tmod_eq_emod h (by norm_num : (0:Int) ≤ 60)]
  omega

theorem sepBy_comm {bm : Int} {a b : OSlot} (h : sepBy bm a b) : sepBy bm b a := by
  unfold sepBy at *
  omega

theorem findSlotLoop_start_nonneg {we d b : Int} {occ : List OSlot}
    (hstops : ∀ o ∈ occ, 0 ≤ o.stop) (hb : 0 ≤ b) :
    ∀ {fuel : Nat} {c : Int} {v : FoundSlot}, 0 ≤ c →
      findSlotLoop we d b occ fuel c = some v → 0 ≤ v.start := by
  intro fuel
  induction fuel with
  | zero => intro c v _ h; simp [findSlotLoop] at h
  | succ fuel ih =>
    intro c v hc h
    rw [findSlotLoop] at h
    by_cases hg : c + d ≤ we
    · rw [if_pos hg] at h
      cases hf : findConflict c (c + d) b occ with
      | none =>
        simp only [hf] at h
        obtain rfl := Option.some.inj h
        exact hc
      | some o =>
        simp only [hf] at h
        have ho := (findConflict_eq_some hf).1
        exact ih (by have := hstops o ho; omega) h
    · rw [if_neg hg] at h
      exact absurd h (by simp)

theorem seededFixedSlots_nonneg {fixedTasks : List ScoredTask} {sd : Int}
    (hdur : ∀ ft ∈ fixedTasks, 0 ≤ ft.task.estimatedDuration) :
    ∀ f ∈ seededFixedSlots fixedTasks sd, 0 ≤ f.start ∧ 0 ≤ f.stop := by
  intro f hf
  unfold seededFixedSlots at hf
  rw [(stableSortBy_perm _ _).mem_iff, List.mem_filterMap] at hf
  obtain ⟨ft, hft, heq⟩ := hf
  cases hs : ft.task.scheduledStart with
  | none => rw [hs] at heq; simp at heq
  | some s =>
    simp only [hs] at heq
    by_cases hd : dayOf s = dayOf sd
    · rw [if_pos hd] at heq
      obtain rfl := Option.some.inj heq
      have hd2 := hdur ft hft
      unfold timeOfDay
      refine ⟨?_, ?_⟩ <;> dsimp only <;> omega
    · rw [if_neg hd] at heq
      simp at heq

theorem mem_fixedTasks_mem_tasks {tasks : List Task} {user : User} {date now : Int}
    {t : ScoredTask} (h : t ∈ fixedTasksOf tasks user date now) : t.task ∈ tasks := by
  unfold fixedTasksOf at h
  rw [List.mem_filter] at h
  obtain ⟨h, _⟩ := h
  unfold scoredTasksOf at h
  rw [List.mem_map] at h
  obtain ⟨task, htask, rfl⟩ := h
  unfold pendingTasksOf at htask
  exact (List.mem_filter.mp htask).1

theorem placeTask_sep (we mdf bm sd now : Int) (user : User) (seeded : List OSlot)
    (ws : Int) (hws : 0 ≤ ws) (hb : 0 ≤ bm) (st : PlaceState) (t : ScoredTask)
    (hdur : 0 ≤ t.task.estimatedDuration)
    (hcur : st.currentTime = ws)
    (hperm : st.occupiedSlots.Perm (seeded ++ st.slots.map (ivOf sd)))
    (hnn : ∀ o ∈ st.occupiedSlots, 0 ≤ o.start ∧ 0 ≤ o.stop)
    (hpair : List.Pairwise (sepBy bm) (st.slots.map (ivOf sd)))
    (hfix : ∀ p ∈ st.slots.map (ivOf sd), ∀ f ∈ seeded, sepBy bm p f) :
    (placeTask we mdf bm sd now user st t).currentTime = ws
    ∧ (placeTask we mdf bm sd now user st t).occupiedSlots.Perm
        (seeded ++ (placeTask we mdf bm sd now user st t).slots.map (ivOf sd))
    ∧ (∀ o ∈ (placeTask we mdf bm sd now user st t).occupiedSlots,
        0 ≤ o.start ∧ 0 ≤ o.stop)
    ∧ List.Pairwise (sepBy bm) ((placeTask we mdf bm sd now user st t).slots.map (ivOf sd))
    ∧ ∀ p ∈ (placeTask we mdf bm sd now user st t).slots.map (ivOf sd), ∀ f ∈ seeded,
        sepBy bm p f := by
  rw [placeTask]
  split
  · exact ⟨hcur, hperm, hnn, hpair, hfix⟩
  · split
    · rename_i slot heq
      obtain ⟨hstop, hge, hle, hnc⟩ := findSlotLoop_sound heq
      have hstart0 : 0 ≤ slot.start :=
        findSlotLoop_start_nonneg (fun o ho => (hnn o ho).2) hb
          (by rw [hcur]; exact hws) heq
      have hstop0 : 0 ≤ slot.stop := by omega
      have hiv : ivOf sd (placedSlotEntry sd now user t slot)
          = { start := slot.start, stop := slot.stop } := by
        unfold ivOf placedSlotEntry
        rw [setHoursOnDay_eq hstart0, setHoursOnDay_eq hstop0]
        simp
      have hsepall : ∀ o ∈ st.occupiedSlots,
          sepBy bm { start := slot.start, stop := slot.stop } o := by
        intro o ho
        have hno := hnc o ho
        unfold sepBy
        simp only at *
        omega
      have hmemocc : ∀ x, x ∈ st.slots.map (ivOf sd) → x ∈ st.occupiedSlots := by
        intro x hx
        rw [hperm.mem_iff]
        exact List.mem_append_right _ hx
      have hmemseed : ∀ f, f ∈ seeded → f ∈ st.occupiedSlots := by
        intro f hf
        rw [hperm.mem_iff]
        exact List.mem_append_left _ hf
      refine ⟨hcur, ?_, ?_, ?_, ?_⟩
      · show (stableSortBy (fun a b => a.start ≤ b.start)
            (st.occupiedSlots ++ [{ start := slot.start, stop := slot.stop }])).Perm
          (seeded ++ (st.slots ++ [placedSlotEntry sd now user t slot]).map (ivOf sd))
        rw [List.map_append, List.map_cons, List.map_nil, hiv, ← List.append_assoc]
        exact (stableSortBy_perm _ _).trans (hperm.append_right _)
      · intro o ho
        rw [(stableSortBy_perm _ _).mem_iff, List.mem_append] at ho
        rcases ho with ho | ho
        · exact hnn o ho
        · rw [List.mem_singleton] at ho
          subst ho
          exact ⟨hstart0, hstop0⟩
      · show List.Pairwise (sepBy bm)
          ((st.slots ++ [placedSlotEntry sd now user t slot]).map (ivOf sd))
        rw [List.map_append, List.map_cons, List.map_nil]
        rw [List.pairwise_append]
        refine ⟨hpair, List.pairwise_singleton _ _, ?_⟩
        intro a ha b hb'
        rw [List.mem_singleton] at hb'
        subst hb'
        rw [hiv]
        exact sepBy_comm (hsepall a (hmemocc a ha))
      · intro p hp f hf
        rw [List.map_append, List.map_cons, List.map_nil, List.mem_append] at hp
        rcases hp with hp | hp
        · exact hfix p hp f hf
        · rw [List.mem_singleton] at hp
          subst hp
          rw [hiv]
          exact hsepall f (hmemseed f hf)
    · exact ⟨hcur, hperm, hnn, hpair, hfix⟩

theorem placeAll_sep (we mdf bm sd now : Int) (user : User) (seeded : List OSlot)
    (ws : Int) (hws : 0 ≤ ws) (hb : 0 ≤ bm) :
    ∀ (ts : List ScoredTask) (st : PlaceState),
      (∀ t ∈ ts, 0 ≤ t.task.estimatedDuration) →
      st.currentTime = ws →
      st.occupiedSlots.Perm (seeded ++ st.slots.map (ivOf sd)) →
      (∀ o ∈ st.occupiedSlots, 0 ≤ o.start ∧ 0 ≤ o.stop) →
      List.Pairwise (sepBy bm) (st.slots.map (ivOf sd)) →
      (∀ p ∈ st.slots.map (ivOf sd), ∀ f ∈ seeded, sepBy bm p f) →
      List.Pairwise (sepBy bm)
          ((ts.foldl (placeTask we mdf bm sd now user) st).slots.map (ivOf sd))
        ∧ ∀ p ∈ (ts.foldl (placeTask we mdf bm sd now user) st).slots.map (ivOf sd),
            ∀ f ∈ seeded, sepBy bm p f := by
  intro ts
  induction ts with
  | nil => intro st _ _ _ _ h5 h6; exact ⟨h5, h6⟩
  | cons t ts ih =>
    intro st hdur h2 h3 h4 h5 h6
    rw [List.foldl_cons]
    obtain ⟨g1, g2, g3, g4, g5⟩ := placeTask_sep we mdf bm sd now user seeded ws hws hb st t
      (hdur t (List.mem_cons_self t ts)) h2 h3 h4 h5 h6
    exact ih _ (fun x hx => hdur x (List.mem_cons_of_mem t hx)) g1 g2 g3 g4 g5

/-- C3 (amended): buffer separation holds for every pair of slots in
which at least one member is a placement made by the engine: distinct
placed slots are pairwise separated by at least `bufferMinutes`, and
every placed slot is separated by at least `bufferMinutes` from every
seeded fixed interval.  Pairs of two *fixed* tasks are never checked
(see the counterexample: the engine seeds overlapping fixed tasks
without complaint). -/
theorem no_double_booking_movable :
    ∀ (tasks : List Task) (user : User) (date now : Int),
      0 ≤ workStartOf user →
      0 ≤ jsOrInt user.bufferMinutes 15 →
      (∀ t ∈ tasks, 0 ≤ t.estimatedDuration) →
      List.Pairwise (fun a b =>
          a.scheduledEnd + jsOrInt user.bufferMinutes 15 ≤ b.scheduledStart
          ∨ b.scheduledEnd + jsOrInt user.bufferMinutes 15 ≤ a.scheduledStart)
        (generateDailySchedule tasks user date now).slots
      ∧ ∀ sl ∈ (generateDailySchedule tasks user date now).slots,
          ∀ f ∈ seededFixedSlots (fixedTasksOf tasks user date now) (targetDateOf date),
            sl.scheduledEnd + jsOrInt user.bufferMinutes 15
                ≤ targetDateOf date + f.start
            ∨ targetDateOf date + f.stop + jsOrInt user.bufferMinutes 15
                ≤ sl.scheduledStart := by
  intro tasks user date now hws hb hdur
  have hdurm : ∀ t ∈ movableSortedOf tasks user date now,
      0 ≤ t.task.estimatedDuration :=
    fun t ht => hdur t.task (mem_movableSorted_mem_tasks ht)
  have hseednn := @seededFixedSlots_nonneg (fixedTasksOf tasks user date now)
    (targetDateOf date)
    (fun ft hft => hdur ft.task (mem_fixedTasks_mem_tasks hft))
  obtain ⟨hpair, hfix⟩ := placeAll_sep (workEndOf user)
    (jsOrInt user.maxDeepFocusMinutes 240) (jsOrInt user.bufferMinutes 15)
    (targetDateOf date) now user
    (seededFixedSlots (fixedTasksOf tasks user date now) (targetDateOf date))
    (workStartOf user) hws hb
    (movableSortedOf tasks user date now) (initStateOf tasks user date now)
    hdurm rfl (by simp [initStateOf]) hseednn List.Pairwise.nil
    (fun p hp f hf => absurd hp (List.not_mem_nil p))
  have hpair' : List.Pairwise (sepBy (jsOrInt user.bufferMinutes 15))
      ((finalStateOf tasks user date now).slots.map (ivOf (targetDateOf date))) := hpair
  have hfix' : ∀ p ∈ (finalStateOf tasks user date now).slots.map
      (ivOf (targetDateOf date)),
      ∀ f ∈ seededFixedSlots (fixedTasksOf tasks user date now) (targetDateOf date),
        sepBy (jsOrInt user.bufferMinutes 15) p f := hfix
  constructor
  · have hP : List.Pairwise (fun a b =>
        a.scheduledEnd + jsOrInt user.bufferMinutes 15 ≤ b.scheduledStart
        ∨ b.scheduledEnd + jsOrInt user.bufferMinutes 15 ≤ a.scheduledStart)
        (finalStateOf tasks user date now).slots := by
      rw [List.pairwise_map] at hpair'
      refine hpair'.imp ?_
      intro a b hab
      unfold sepBy ivOf at hab
      simp only at hab
      omega
    show List.Pairwise _ (stableSortBy (fun a b => a.scheduledStart ≤ b.scheduledStart)
      (finalStateOf tasks user date now).slots)
    exact ((stableSortBy_perm _ _).pairwise_iff (fun hab => hab.symm)).mpr hP
  · intro sl hsl f hf
    have hsl' : sl ∈ (finalStateOf tasks user date now).slots := by
      have : sl ∈ stableSortBy (fun a b => a.scheduledStart ≤ b.scheduledStart)
          (finalStateOf tasks user date now).slots := hsl
      rwa [(stableSortBy_perm _ _).mem_iff] at this
    have := hfix' (ivOf (targetDateOf date) sl) (List.mem_map_of_mem _ hsl') f hf
    unfold sepBy ivOf at this
    simp only at this
    omega

set_option maxRecDepth 4000 in
/-- C3 counterexample: two fixed tasks both scheduled at 10:00–11:00 on
the target day are seeded as two identical occupied intervals; the
buffer-separation predicate fails on this pair, so the claim's "all
pairs of distinct placed slots and fixed tasks" does not hold as
stated.  (The movable output is empty, so the fixed pair is the only
pair.) -/
theorem fixed_overlap_counterexample :
    seededFixedSlots
        (fixedTasksOf
          [⟨4, "a", "", "medium", "fixed", "low-focus", 60, 2000, false, some 600⟩,
           ⟨5, "b", "", "medium", "fixed", "low-focus", 60, 2000, false, some 600⟩]
          ⟨some "09:00", some "17:00", none, some 15⟩ 0 0) (targetDateOf 0)
      = [{ start := 600, stop := 660 }, { start := 600, stop := 660 }]
    ∧ ¬ List.Pairwise (sepBy 15)
        (seededFixedSlots
          (fixedTasksOf
            [⟨4, "a", "", "medium", "fixed", "low-focus", 60, 2000, false, some 600⟩,
             ⟨5, "b", "", "medium", "fixed", "low-focus", 60, 2000, false, some 600⟩]
            ⟨some "09:00", some "17:00", none, some 15⟩ 0 0) (targetDateOf 0)
          ++ (generateDailySchedule
            [⟨4, "a", "", "medium", "fixed", "low-focus", 60, 2000, false, some 600⟩,
             ⟨5, "b", "", "medium", "fixed", "low-focus", 60, 2000, false, some 600⟩]
            ⟨some "09:00", some "17:00", none, some 15⟩ 0 0).slots.map
              (ivOf (targetDateOf 0))) := by
  with_unfolding_all decide

/-- Witness for C3 on the spec's scenario input (one fixed task, one
movable task, buffer 15). -/
theorem no_double_booking_movable_witness :
    List.Pairwise (fun a b =>
        a.scheduledEnd
            + jsOrInt (⟨some "09:00", some "17:00", none, some 15⟩ : User).bufferMinutes 15
          ≤ b.scheduledStart
        ∨ b.scheduledEnd
            + jsOrInt (⟨some "09:00", some "17:00", none, some 15⟩ : User).bufferMinutes 15
          ≤ a.scheduledStart)
      (generateDailySchedule
        [⟨2, "standup", "", "high", "fixed", "low-focus", 60, 2000, false, some 600⟩,
         ⟨1, "report", "", "high", "movable", "low-focus", 30, 2000, false, none⟩]
        ⟨some "09:00", some "17:00", none, some 15⟩ 0 0).slots :=
  (no_double_booking_movable
    [⟨2, "standup", "", "high", "fixed", "low-focus", 60, 2000, false, some 600⟩,
     ⟨1, "report", "", "high", "movable", "low-focus", 30, 2000, false, none⟩]
    ⟨some "09:00", some "17:00", none, some 15⟩ 0 0
    (by decide) (by decide) (by decide)).1

/-- Witness for C2's amended theorem at the swapped-working-hours
input. -/
theorem generateDailySchedule_total_on_malformed_witness :
    (generateDailySchedule
        [⟨3, "t", "", "medium", "movable", "low-focus", 30, 100, false, none⟩]
        ⟨some "17:00", some "09:00", none, some 15⟩ 0 0).slots = [] :=
  (generateDailySchedule_total_on_malformed
    [⟨3, "t", "", "medium", "movable", "low-focus", 30, 100, false, none⟩]
    ⟨some "17:00", some "09:00", none, some 15⟩ 0 0
    (by decide) (by decide)).1

/-- Witness for C10 at a concrete input and 3 units of extra fuel. -/
theorem findAvailableSlot_terminates_witness :
    (0 : Int) ≤ 5 ∧
    findSlotLoop 100 30 5 [{ start := 20, stop := 40 }]
      (((100 : Int) - 30 - 0 + 1).toNat + 3) 0
      = findAvailableSlot 0 100 30 5 [{ start := 20, stop := 40 }] :=
  ⟨by decide,
    (findAvailableSlot_terminates 0 100 30 5 [{ start := 20, stop := 40 }] (by decide)).2 3⟩

end Schedula
